import Mathlib

/-!
Verification of the `pagetable` crate: a 4-level wait-free atomic page table
(`src/lib.rs`).  We give a shallow embedding of the data structure and of the
public `get` operation, and prove the spec's claims about it.

Modelling choices:
* Machine integers are `Nat`; a `u64` key is a `Nat` (claims that need it
  assume `key < 2^64`); 16-bit segments are `Nat`s below `2^16`.
* Each heap-allocated node/leaf carries an `id : Nat`, the value of the
  allocation counter at its creation; `id` plays the role of the object's
  address, so "the pointer in a slot never changes" is stated as "the id of
  the installed child never changes".
* Atomic pointers become `Option` fields; `none` is the null pointer.
* The concurrent `punch_through` (lib.rs lines 178-205) is modelled twice:
  once at the level of a single atomic slot, with the values observed by the
  acquire-load and by the compare-and-swap supplied as adversarial parameters
  (`punch_through`), and once as the interference-free state-passing
  specialization used by the sequential embedding of `get` (`punch_seq`,
  defined in terms of `punch_through`).
* In-place mutation through returned references becomes explicit state
  passing: `PageTable.get` returns both a `SlotRef` (the identity of the
  returned slot: which of the four roots, and the indices on the path, which
  is exactly what determines the referenced memory location) and the updated
  table state.  Caller writes through a returned reference are modelled by
  `writeSlot` and reads by `readSlot`.
-/

/-- Constant `FANOUT` from lib.rs line 12: `1 << 16`. -/
def FANOUT : Nat := 1 <<< 16

/-- The `Zeroable` marker trait (lib.rs line 24): element types whose all-zero
byte pattern is a valid value.  In the model the class carries that zero
value, which is what `alloc_zeroed` fills leaf slots with. -/
class Zeroable (α : Type) where
  zeroVal : α

/-- Instances `impl Zeroable for AtomicU64` and friends (lib.rs lines 45-57): the model
represents an atomic integer by its value. -/
instance : Zeroable Nat := ⟨0⟩

/-- Leaf page `L4<T>` (lib.rs lines 173-175): `children: [T; FANOUT]`,
zero-initialized at allocation.  `id` is the model's name for the object's
address (allocation number). -/
structure L4 (α : Type) where
  id : Nat
  children : Nat → α

/-- Level-3 node `L3<T>` (lib.rs lines 169-171): `children: [AtomicPtr<L4<T>>; FANOUT]`. -/
structure L3 (α : Type) where
  id : Nat
  children : Nat → Option (L4 α)

/-- Level-2 node `L2<T>` (lib.rs lines 165-167): `children: [AtomicPtr<L3<T>>; FANOUT]`. -/
structure L2 (α : Type) where
  id : Nat
  children : Nat → Option (L3 α)

/-- Level-1 node `L1<T>` (lib.rs lines 161-163): `children: [AtomicPtr<L2<T>>; FANOUT]`. -/
structure L1 (α : Type) where
  id : Nat
  children : Nat → Option (L2 α)

/-- Struct `PageTableInner<T>` (lib.rs lines 118-127): the four independent root
pointers, plus the model's allocation counter `ctr` (source of fresh ids). -/
structure TableState (α : Type) where
  ctr : Nat
  l1 : Option (L1 α)
  l2 : Option (L2 α)
  l3 : Option (L3 α)
  l4 : Option (L4 α)

/-- Impl `Default for PageTableInner` (lib.rs lines 129-138): four null roots,
nothing allocated. -/
def TableState.empty {α : Type} : TableState α :=
  ⟨0, none, none, none, none⟩

/-- Impl `Clone for PageTable` (lib.rs lines 110-116) clones the `Arc`, so both
handles denote the very same underlying tree: in the model a handle is
identified with the tree state it points to, and cloning is the identity. -/
def TableState.clone {α : Type} (st : TableState α) : TableState α := st

/-- Pointwise update of a function-modelled fixed array (in-place store
`parent[k] = v` in the source). -/
def updFn {β : Type} (f : Nat → β) (k : Nat) (v : β) : Nat → β :=
  fun i => if i = k then v else f i

/-- Everything observable about one execution of `punch_through`
(lib.rs lines 178-205) on a single atomic slot. -/
structure PunchOutcome (β : Type) where
  result : β
  allocated : Option β
  casAttempted : Bool
  freed : Option β
  slotAfter : Option β

/-- Function `punch_through` (lib.rs lines 178-205), one execution on one atomic slot.
`loadObs` is what the initial acquire-load returns; `casObs` is the slot
content the compare-and-swap observes (these may differ under concurrent
interference); `fresh` is the zero-initialized child this thread would
allocate.  Branches in order of the source:
* load non-null: return that child; no allocation, no CAS, no free;
* load null: allocate `fresh`, CAS (expected null).  CAS observes null:
  success, `fresh` is installed and returned.  CAS observes some `q`:
  failure, `fresh` is deallocated and `q`'s object is returned. -/
def punch_through {β : Type} (loadObs : Option β) (casObs : Option β) (fresh : β) :
    PunchOutcome β :=
  match loadObs with
  | some p => ⟨p, none, false, none, some p⟩
  | none =>
    match casObs with
    | none => ⟨fresh, some fresh, true, none, some fresh⟩
    | some q => ⟨q, some fresh, true, some fresh, some q⟩

/-- The interference-free specialization of `punch_through` used by the
sequential embedding of `get`: the load and the CAS observe the slot's actual
content.  `mkFresh` builds the zero-initialized child from a fresh id; the
returned `Nat` is the updated allocation counter. -/
def punch_seq {β : Type} (mkFresh : Nat → β) (slot : Option β) (ctr : Nat) : β × Nat :=
  let out := punch_through slot slot (mkFresh ctr)
  (out.result, if out.allocated.isSome then ctr + 1 else ctr)

/-- Zero-initialized fresh `L4` leaf: `alloc_zeroed` fills all `FANOUT` value
slots with the element type's zero value. -/
def mkL4 {α : Type} [Zeroable α] (i : Nat) : L4 α :=
  ⟨i, fun _ => Zeroable.zeroVal⟩

/-- Zero-initialized fresh `L3` node: all child pointers null. -/
def mkL3 {α : Type} (i : Nat) : L3 α :=
  ⟨i, fun _ => none⟩

/-- Zero-initialized fresh `L2` node: all child pointers null. -/
def mkL2 {α : Type} (i : Nat) : L2 α :=
  ⟨i, fun _ => none⟩

/-- Zero-initialized fresh `L1` node: all child pointers null. -/
def mkL1 {α : Type} (i : Nat) : L1 α :=
  ⟨i, fun _ => none⟩

/-- Call `traverse_or_install(&l3.children, k3)` (lib.rs lines 211-214) followed by
the leaf: punch through the `L3`-level slot, then the `L4` slot under it at
index `k3`.  Returns the updated `L3` node (the write-back of the functional
encoding: in the source the parent's slot points at the child object that the
CAS installed) and the updated allocation counter. -/
def installL3chain {α : Type} [Zeroable α] (slot : Option (L3 α)) (ctr k3 : Nat) :
    L3 α × Nat :=
  let p3 := punch_seq mkL3 slot ctr
  let p4 := punch_seq mkL4 (p3.1.children k3) p3.2
  (⟨p3.1.id, updFn p3.1.children k3 (some p4.1)⟩, p4.2)

/-- Punch through an `L2`-level slot, then traverse `k2` and `k3` below it. -/
def installL2chain {α : Type} [Zeroable α] (slot : Option (L2 α)) (ctr k2 k3 : Nat) :
    L2 α × Nat :=
  let p2 := punch_seq mkL2 slot ctr
  let p3 := installL3chain (p2.1.children k2) p2.2 k3
  (⟨p2.1.id, updFn p2.1.children k2 (some p3.1)⟩, p3.2)

/-- Punch through the `L1` root slot, then traverse `k1`, `k2`, `k3` below it. -/
def installL1chain {α : Type} [Zeroable α] (slot : Option (L1 α)) (ctr k1 k2 k3 : Nat) :
    L1 α × Nat :=
  let p1 := punch_seq mkL1 slot ctr
  let p2 := installL2chain (p1.1.children k1) p1.2 k2 k3
  (⟨p1.1.id, updFn p1.1.children k1 (some p2.1)⟩, p2.2)

/-- Byte `i` (0 = most significant) of `key.to_be_bytes()` for a `u64` key
(lib.rs line 228). -/
def beByte (key i : Nat) : Nat :=
  key / 256 ^ (7 - i) % 256

/-- Conversion `u16::from_be_bytes([hi, lo])`. -/
def u16FromBe (hi lo : Nat) : Nat :=
  hi * 256 + lo

/-- Segment `k1` (lib.rs line 229): bytes 0 and 1 of the big-endian key,
i.e. bits 63..48. -/
def k1seg (key : Nat) : Nat :=
  u16FromBe (beByte key 0) (beByte key 1)

/-- Segment `k2` (lib.rs line 230): bytes 2 and 3, bits 47..32. -/
def k2seg (key : Nat) : Nat :=
  u16FromBe (beByte key 2) (beByte key 3)

/-- Segment `k3` (lib.rs line 231): bytes 4 and 5, bits 31..16. -/
def k3seg (key : Nat) : Nat :=
  u16FromBe (beByte key 4) (beByte key 5)

/-- Segment `k4` (lib.rs line 232): bytes 6 and 7, bits 15..0. -/
def k4seg (key : Nat) : Nat :=
  u16FromBe (beByte key 6) (beByte key 7)

/-- Identity of the slot returned by `get`: which of the four root entry
points it lives under, and the path indices.  Two references returned by
`get` denote the same memory location exactly when their `SlotRef`s are
equal, because the four roots are separately allocated objects and child
slots at distinct indices are distinct objects (see the write-once theorem). -/
inductive SlotRef where
  | r4 (k4 : Nat)
  | r3 (k3 k4 : Nat)
  | r2 (k2 k3 k4 : Nat)
  | r1 (k1 k2 k3 k4 : Nat)
deriving DecidableEq, Repr

/-- Method `PageTable::get` (lib.rs lines 227-255): decompose the key into the four
big-endian 16-bit segments, classify by `k1 | k2 | k3 == 0`, `k1 | k2 == 0`,
`k1 == 0` (lib.rs lines 234-236), consult exactly one of the four roots, and
punch through the remaining levels.  Returns the identity of the resulting
`&T` slot (`&l4.children[k4]`, line 254) and the updated table state. -/
def PageTable.get {α : Type} [Zeroable α] (st : TableState α) (key : Nat) :
    SlotRef × TableState α :=
  let k1 := k1seg key
  let k2 := k2seg key
  let k3 := k3seg key
  let k4 := k4seg key
  if k1 ||| k2 ||| k3 = 0 then
    let p := punch_seq mkL4 st.l4 st.ctr
    (SlotRef.r4 k4, { st with l4 := some p.1, ctr := p.2 })
  else if k1 ||| k2 = 0 then
    let p := installL3chain st.l3 st.ctr k3
    (SlotRef.r3 k3 k4, { st with l3 := some p.1, ctr := p.2 })
  else if k1 = 0 then
    let p := installL2chain st.l2 st.ctr k2 k3
    (SlotRef.r2 k2 k3 k4, { st with l2 := some p.1, ctr := p.2 })
  else
    let p := installL1chain st.l1 st.ctr k1 k2 k3
    (SlotRef.r1 k1 k2 k3 k4, { st with l1 := some p.1, ctr := p.2 })

/-- The slot identity `get key` returns, as a function of the key alone
(the classification in `PageTable.get` depends only on the key). -/
def slotRefOfKey (key : Nat) : SlotRef :=
  if k1seg key ||| k2seg key ||| k3seg key = 0 then
    SlotRef.r4 (k4seg key)
  else if k1seg key ||| k2seg key = 0 then
    SlotRef.r3 (k3seg key) (k4seg key)
  else if k1seg key = 0 then
    SlotRef.r2 (k2seg key) (k3seg key) (k4seg key)
  else
    SlotRef.r1 (k1seg key) (k2seg key) (k3seg key) (k4seg key)

/-- Impl `Index<I> for PageTable<T>` for any `I: Into<u64>`
(lib.rs lines 258-264): `self.get(index.into())`.  `into` is the `Into<u64>`
conversion of the index type. -/
def PageTable.index {α ι : Type} [Zeroable α] (st : TableState α) (into : ι → Nat)
    (i : ι) : SlotRef × TableState α :=
  PageTable.get st (into i)

/-- Read a value slot out of an optional leaf: a not-yet-materialized leaf
reads as all-zero (that is exactly the content `get` would install there). -/
def readL4 {α : Type} [Zeroable α] (o : Option (L4 α)) (d : Nat) : α :=
  match o with
  | some n => n.children d
  | none => Zeroable.zeroVal

/-- Read through an optional `L3` node. -/
def readL3 {α : Type} [Zeroable α] (o : Option (L3 α)) (c d : Nat) : α :=
  match o with
  | some n => readL4 (n.children c) d
  | none => Zeroable.zeroVal

/-- Read through an optional `L2` node. -/
def readL2 {α : Type} [Zeroable α] (o : Option (L2 α)) (b c d : Nat) : α :=
  match o with
  | some n => readL3 (n.children b) c d
  | none => Zeroable.zeroVal

/-- Read through an optional `L1` node. -/
def readL1 {α : Type} [Zeroable α] (o : Option (L1 α)) (a b c d : Nat) : α :=
  match o with
  | some n => readL2 (n.children a) b c d
  | none => Zeroable.zeroVal

/-- Dereference a slot reference: the value currently stored in that memory
location (zero if the location is not yet materialized). -/
def readSlot {α : Type} [Zeroable α] (st : TableState α) : SlotRef → α
  | .r4 d => readL4 st.l4 d
  | .r3 c d => readL3 st.l3 c d
  | .r2 b c d => readL2 st.l2 b c d
  | .r1 a b c d => readL1 st.l1 a b c d

/-- Store `v` in value slot `d` of an optional leaf, materializing the leaf if
needed (a caller can only hold a reference to a materialized slot, so the
materializing case never changes an observable value). -/
def writeL4 {α : Type} [Zeroable α] (o : Option (L4 α)) (ctr d : Nat) (v : α) :
    L4 α × Nat :=
  let p := punch_seq mkL4 o ctr
  (⟨p.1.id, updFn p.1.children d v⟩, p.2)

/-- Store through an optional `L3` node. -/
def writeL3 {α : Type} [Zeroable α] (o : Option (L3 α)) (ctr c d : Nat) (v : α) :
    L3 α × Nat :=
  let p := punch_seq mkL3 o ctr
  let q := writeL4 (p.1.children c) p.2 d v
  (⟨p.1.id, updFn p.1.children c (some q.1)⟩, q.2)

/-- Store through an optional `L2` node. -/
def writeL2 {α : Type} [Zeroable α] (o : Option (L2 α)) (ctr b c d : Nat) (v : α) :
    L2 α × Nat :=
  let p := punch_seq mkL2 o ctr
  let q := writeL3 (p.1.children b) p.2 c d v
  (⟨p.1.id, updFn p.1.children b (some q.1)⟩, q.2)

/-- Store through an optional `L1` node. -/
def writeL1 {α : Type} [Zeroable α] (o : Option (L1 α)) (ctr a b c d : Nat) (v : α) :
    L1 α × Nat :=
  let p := punch_seq mkL1 o ctr
  let q := writeL2 (p.1.children a) p.2 b c d v
  (⟨p.1.id, updFn p.1.children a (some q.1)⟩, q.2)

/-- A caller's store through a reference returned by `get`: write `v` into the
memory location named by `r`. -/
def writeSlot {α : Type} [Zeroable α] (st : TableState α) (r : SlotRef) (v : α) :
    TableState α :=
  match r with
  | .r4 d =>
    let p := writeL4 st.l4 st.ctr d v
    { st with l4 := some p.1, ctr := p.2 }
  | .r3 c d =>
    let p := writeL3 st.l3 st.ctr c d v
    { st with l3 := some p.1, ctr := p.2 }
  | .r2 b c d =>
    let p := writeL2 st.l2 st.ctr b c d v
    { st with l2 := some p.1, ctr := p.2 }
  | .r1 a b c d =>
    let p := writeL1 st.l1 st.ctr a b c d v
    { st with l1 := some p.1, ctr := p.2 }

/-- One interaction of a client with the table: a `get key` call, or a store
of `v` through the reference `get key` returned. -/
inductive Op (α : Type) where
  | get (key : Nat)
  | write (key : Nat) (v : α)

/-- Does this operation store into the memory location `r`? -/
def Op.writesSlot {α : Type} (r : SlotRef) : Op α → Bool
  | .get _ => false
  | .write key _ => decide (slotRefOfKey key = r)

/-- Run a sequence of client operations against a table state. -/
def exec {α : Type} [Zeroable α] : List (Op α) → TableState α → TableState α
  | [], st => st
  | .get key :: ops, st => exec ops (PageTable.get st key).2
  | .write key v :: ops, st => exec ops (writeSlot st (slotRefOfKey key) v)

/-- Extension order on optional child pointers: a null slot may stay null or
be installed; a non-null slot must keep a child related by `ext` (never be
nulled, never be replaced). -/
def OptExt {β : Type} (ext : β → β → Prop) : Option β → Option β → Prop
  | none, _ => True
  | some _, none => False
  | some a, some b => ext a b

/-- A `get` never touches a leaf it finds installed: same object (id), same
contents in every one of the `FANOUT` value slots. -/
def L4.Ext {α : Type} (a b : L4 α) : Prop :=
  b.id = a.id ∧ ∀ i, b.children i = a.children i

/-- An installed `L3` node keeps its identity, and each of its child slots
only extends. -/
def L3.Ext {α : Type} (a b : L3 α) : Prop :=
  b.id = a.id ∧ ∀ i, OptExt L4.Ext (a.children i) (b.children i)

/-- An installed `L2` node keeps its identity, and each of its child slots
only extends. -/
def L2.Ext {α : Type} (a b : L2 α) : Prop :=
  b.id = a.id ∧ ∀ i, OptExt L3.Ext (a.children i) (b.children i)

/-- An installed `L1` node keeps its identity, and each of its child slots
only extends. -/
def L1.Ext {α : Type} (a b : L1 α) : Prop :=
  b.id = a.id ∧ ∀ i, OptExt L2.Ext (a.children i) (b.children i)

/-- Monotonic-installation order on whole table states: each of the four root
slots, and recursively every child-pointer slot below them, either stays
null, goes from null to installed, or keeps the exact same child (same id);
leaf contents are untouched. -/
def TableState.Ext {α : Type} (st st2 : TableState α) : Prop :=
  st.ctr ≤ st2.ctr ∧
  OptExt L1.Ext st.l1 st2.l1 ∧
  OptExt L2.Ext st.l2 st2.l2 ∧
  OptExt L3.Ext st.l3 st2.l3 ∧
  OptExt L4.Ext st.l4 st2.l4

/-- Function `punch_through` under allocation failure: `alloc_zeroed` returning null
makes the `assert!` at lib.rs line 184 abort the process, modelled as `none`.
`allocOk` says whether the allocator can satisfy the request. -/
def punchF {β : Type} (mkFresh : Nat → β) (allocOk : Bool) (slot : Option β)
    (ctr : Nat) : Option (β × Nat) :=
  match slot with
  | some c => some (c, ctr)
  | none => if allocOk then some (mkFresh ctr, ctr + 1) else none

/-- Variant of `installL3chain` under possible allocation failure. -/
def installL3chainF {α : Type} [Zeroable α] (allocOk : Bool) (slot : Option (L3 α))
    (ctr k3 : Nat) : Option (L3 α × Nat) :=
  (punchF mkL3 allocOk slot ctr).bind fun p3 =>
  (punchF mkL4 allocOk (p3.1.children k3) p3.2).bind fun p4 =>
  some (⟨p3.1.id, updFn p3.1.children k3 (some p4.1)⟩, p4.2)

/-- Variant of `installL2chain` under possible allocation failure. -/
def installL2chainF {α : Type} [Zeroable α] (allocOk : Bool) (slot : Option (L2 α))
    (ctr k2 k3 : Nat) : Option (L2 α × Nat) :=
  (punchF mkL2 allocOk slot ctr).bind fun p2 =>
  (installL3chainF allocOk (p2.1.children k2) p2.2 k3).bind fun p3 =>
  some (⟨p2.1.id, updFn p2.1.children k2 (some p3.1)⟩, p3.2)

/-- Variant of `installL1chain` under possible allocation failure. -/
def installL1chainF {α : Type} [Zeroable α] (allocOk : Bool) (slot : Option (L1 α))
    (ctr k1 k2 k3 : Nat) : Option (L1 α × Nat) :=
  (punchF mkL1 allocOk slot ctr).bind fun p1 =>
  (installL2chainF allocOk (p1.1.children k1) p1.2 k2 k3).bind fun p2 =>
  some (⟨p1.1.id, updFn p1.1.children k1 (some p2.1)⟩, p2.2)

/-- Method `PageTable::get` under possible allocation failure: `none` means the
process aborted on memory exhaustion inside an install step; otherwise the
call returns a usable slot. -/
def PageTable.getF {α : Type} [Zeroable α] (allocOk : Bool) (st : TableState α)
    (key : Nat) : Option (SlotRef × TableState α) :=
  let k1 := k1seg key
  let k2 := k2seg key
  let k3 := k3seg key
  let k4 := k4seg key
  if k1 ||| k2 ||| k3 = 0 then
    (punchF mkL4 allocOk st.l4 st.ctr).bind fun p =>
    some (SlotRef.r4 k4, { st with l4 := some p.1, ctr := p.2 })
  else if k1 ||| k2 = 0 then
    (installL3chainF allocOk st.l3 st.ctr k3).bind fun p =>
    some (SlotRef.r3 k3 k4, { st with l3 := some p.1, ctr := p.2 })
  else if k1 = 0 then
    (installL2chainF allocOk st.l2 st.ctr k2 k3).bind fun p =>
    some (SlotRef.r2 k2 k3 k4, { st with l2 := some p.1, ctr := p.2 })
  else
    (installL1chainF allocOk st.l1 st.ctr k1 k2 k3).bind fun p =>
    some (SlotRef.r1 k1 k2 k3 k4, { st with l1 := some p.1, ctr := p.2 })

/-- A bitwise-or of naturals is zero exactly when both operands are zero:
the meaning of the `k1 | k2 | k3 == 0` shortcut tests in `get`. -/
theorem lor_eq_zero_iff (a b : Nat) : a ||| b = 0 ↔ a = 0 ∧ b = 0 := by
  constructor
  · intro h
    refine ⟨Nat.zero_of_testBit_eq_false fun i => ?h1, Nat.zero_of_testBit_eq_false fun i => ?h2⟩
    · have h3 := congrArg (fun x => Nat.testBit x i) h
      simp only [Nat.testBit_lor, Nat.zero_testBit, Bool.or_eq_false_iff] at h3
      exact h3.1
    · have h3 := congrArg (fun x => Nat.testBit x i) h
      simp only [Nat.testBit_lor, Nat.zero_testBit, Bool.or_eq_false_iff] at h3
      exact h3.2
  · rintro ⟨rfl, rfl⟩
    rfl

/-- The byte-level definition of `k1` agrees with bits 63..48 of the key. -/
theorem k1seg_eq (key : Nat) : k1seg key = key / 2 ^ 48 % 2 ^ 16 := by
  simp only [k1seg, u16FromBe, beByte]
  omega

/-- The byte-level definition of `k2` agrees with bits 47..32 of the key. -/
theorem k2seg_eq (key : Nat) : k2seg key = key / 2 ^ 32 % 2 ^ 16 := by
  simp only [k2seg, u16FromBe, beByte]
  omega

/-- The byte-level definition of `k3` agrees with bits 31..16 of the key. -/
theorem k3seg_eq (key : Nat) : k3seg key = key / 2 ^ 16 % 2 ^ 16 := by
  simp only [k3seg, u16FromBe, beByte]
  omega

/-- The byte-level definition of `k4` agrees with bits 15..0 of the key. -/
theorem k4seg_eq (key : Nat) : k4seg key = key % 2 ^ 16 := by
  simp only [k4seg, u16FromBe, beByte]
  omega

/-- Reassembling the four big-endian segments recovers any 64-bit key. -/
theorem segs_reassemble {key : Nat} (h : key < 2 ^ 64) :
    k1seg key * 2 ^ 48 + k2seg key * 2 ^ 32 + k3seg key * 2 ^ 16 + k4seg key = key := by
  rw [k1seg_eq, k2seg_eq, k3seg_eq, k4seg_eq]
  omega

@[simp]
theorem updFn_self {β : Type} (f : Nat → β) (k : Nat) (v : β) : updFn f k v k = v := by
  simp [updFn]

theorem updFn_ne {β : Type} (f : Nat → β) (k : Nat) (v : β) {i : Nat} (h : i ≠ k) :
    updFn f k v i = f i := by
  simp [updFn, h]

theorem punch_seq_some {β : Type} (mkFresh : Nat → β) (c : β) (ctr : Nat) :
    punch_seq mkFresh (some c) ctr = (c, ctr) := rfl

theorem punch_seq_none {β : Type} (mkFresh : Nat → β) (ctr : Nat) :
    punch_seq mkFresh none ctr = (mkFresh ctr, ctr + 1) := rfl

/-- Punching through a leaf slot does not change the value read from any of
its value slots: a fresh leaf is all-zero, an existing leaf is untouched. -/
theorem readL4_punch {α : Type} [Zeroable α] (o : Option (L4 α)) (ctr d : Nat) :
    readL4 (some (punch_seq mkL4 o ctr).1) d = readL4 o d := by
  cases o <;> rfl

/-- Lemma: `installL3chain` does not change the value read at any (c, d). -/
theorem readL3_chain {α : Type} [Zeroable α] (o : Option (L3 α)) (ctr k3 c d : Nat) :
    readL3 (some (installL3chain o ctr k3).1) c d = readL3 o c d := by
  cases o with
  | none =>
    simp only [installL3chain, punch_seq_none, readL3]
    by_cases hc : c = k3
    · subst hc
      rw [updFn_self]
      simp [mkL3, punch_seq_none, readL4, mkL4]
    · rw [updFn_ne _ _ _ hc]
      simp [mkL3, readL4]
  | some n3 =>
    simp only [installL3chain, punch_seq_some, readL3]
    by_cases hc : c = k3
    · subst hc
      rw [updFn_self, readL4_punch]
    · rw [updFn_ne _ _ _ hc]

/-- Lemma: `installL2chain` does not change the value read at any (b, c, d). -/
theorem readL2_chain {α : Type} [Zeroable α] (o : Option (L2 α)) (ctr k2 k3 b c d : Nat) :
    readL2 (some (installL2chain o ctr k2 k3).1) b c d = readL2 o b c d := by
  cases o with
  | none =>
    simp only [installL2chain, punch_seq_none, readL2]
    by_cases hb : b = k2
    · subst hb
      rw [updFn_self, readL3_chain]
      simp [mkL2, readL3]
    · rw [updFn_ne _ _ _ hb]
      simp [mkL2, readL3]
  | some n2 =>
    simp only [installL2chain, punch_seq_some, readL2]
    by_cases hb : b = k2
    · subst hb
      rw [updFn_self, readL3_chain]
    · rw [updFn_ne _ _ _ hb]

/-- Lemma: `installL1chain` does not change the value read at any (a, b, c, d). -/
theorem readL1_chain {α : Type} [Zeroable α] (o : Option (L1 α)) (ctr k1 k2 k3 a b c d : Nat) :
    readL1 (some (installL1chain o ctr k1 k2 k3).1) a b c d = readL1 o a b c d := by
  cases o with
  | none =>
    simp only [installL1chain, punch_seq_none, readL1]
    by_cases ha : a = k1
    · subst ha
      rw [updFn_self, readL2_chain]
      simp [mkL1, readL2]
    · rw [updFn_ne _ _ _ ha]
      simp [mkL1, readL2]
  | some n1 =>
    simp only [installL1chain, punch_seq_some, readL1]
    by_cases ha : a = k1
    · subst ha
      rw [updFn_self, readL2_chain]
    · rw [updFn_ne _ _ _ ha]

/-- A `get` never changes the value stored at any memory location: it only
materializes zero-initialized pages, whose slots read as zero both before
(as unmaterialized locations) and after. -/
theorem readSlot_get {α : Type} [Zeroable α] (st : TableState α) (key : Nat) (r : SlotRef) :
    readSlot (PageTable.get st key).2 r = readSlot st r := by
  simp only [PageTable.get]
  split
  · cases r with
    | r4 d => simp only [readSlot, readL4_punch]
    | r3 c d => rfl
    | r2 b c d => rfl
    | r1 a b c d => rfl
  · split
    · cases r with
      | r4 d => rfl
      | r3 c d => simp only [readSlot, readL3_chain]
      | r2 b c d => rfl
      | r1 a b c d => rfl
    · split
      · cases r with
        | r4 d => rfl
        | r3 c d => rfl
        | r2 b c d => simp only [readSlot, readL2_chain]
        | r1 a b c d => rfl
      · cases r with
        | r4 d => rfl
        | r3 c d => rfl
        | r2 b c d => rfl
        | r1 a b c d => simp only [readSlot, readL1_chain]

/-- Every location of the empty table reads as zero. -/
theorem readSlot_empty {α : Type} [Zeroable α] (r : SlotRef) :
    readSlot (TableState.empty : TableState α) r = Zeroable.zeroVal := by
  cases r <;> rfl

/-- The slot reference `get` returns is determined by the key alone. -/
theorem get_fst {α : Type} [Zeroable α] (st : TableState α) (key : Nat) :
    (PageTable.get st key).1 = slotRefOfKey key := by
  simp only [PageTable.get, slotRefOfKey]
  split
  · rfl
  · split
    · rfl
    · split <;> rfl

/-- Reading back the slot just written (leaf level). -/
theorem readL4_writeL4_self {α : Type} [Zeroable α] (o : Option (L4 α)) (ctr d : Nat) (v : α) :
    readL4 (some (writeL4 o ctr d v).1) d = v := by
  simp [writeL4, readL4]

/-- Reading back the slot just written (level 3). -/
theorem readL3_writeL3_self {α : Type} [Zeroable α] (o : Option (L3 α)) (ctr c d : Nat) (v : α) :
    readL3 (some (writeL3 o ctr c d v).1) c d = v := by
  simp [writeL3, readL3, readL4_writeL4_self]

/-- Reading back the slot just written (level 2). -/
theorem readL2_writeL2_self {α : Type} [Zeroable α] (o : Option (L2 α)) (ctr b c d : Nat) (v : α) :
    readL2 (some (writeL2 o ctr b c d v).1) b c d = v := by
  simp [writeL2, readL2, readL3_writeL3_self]

/-- Reading back the slot just written (level 1). -/
theorem readL1_writeL1_self {α : Type} [Zeroable α] (o : Option (L1 α)) (ctr a b c d : Nat) (v : α) :
    readL1 (some (writeL1 o ctr a b c d v).1) a b c d = v := by
  simp [writeL1, readL1, readL2_writeL2_self]

/-- A store through a reference is observed by any later read through an
equal reference. -/
theorem readSlot_writeSlot_self {α : Type} [Zeroable α] (st : TableState α) (r : SlotRef) (v : α) :
    readSlot (writeSlot st r v) r = v := by
  cases r with
  | r4 d => exact readL4_writeL4_self st.l4 st.ctr d v
  | r3 c d => exact readL3_writeL3_self st.l3 st.ctr c d v
  | r2 b c d => exact readL2_writeL2_self st.l2 st.ctr b c d v
  | r1 a b c d => exact readL1_writeL1_self st.l1 st.ctr a b c d v

/-- A leaf-level store leaves every other value slot of the leaf unchanged. -/
theorem readL4_writeL4_ne {α : Type} [Zeroable α] (o : Option (L4 α)) (ctr d : Nat) (v : α)
    {e : Nat} (h : e ≠ d) :
    readL4 (some (writeL4 o ctr d v).1) e = readL4 o e := by
  cases o with
  | none => simp [writeL4, readL4, updFn_ne _ _ _ h, punch_seq_none, mkL4]
  | some n => simp [writeL4, readL4, updFn_ne _ _ _ h, punch_seq_some]

/-- A level-3 store leaves every other value slot below the node unchanged. -/
theorem readL3_writeL3_ne {α : Type} [Zeroable α] (o : Option (L3 α)) (ctr c d : Nat) (v : α)
    {g e : Nat} (h : ¬(g = c ∧ e = d)) :
    readL3 (some (writeL3 o ctr c d v).1) g e = readL3 o g e := by
  by_cases hg : g = c
  · subst hg
    have he : e ≠ d := fun hc => h ⟨rfl, hc⟩
    cases o with
    | none =>
      simp only [writeL3, punch_seq_none, readL3, updFn_self]
      rw [readL4_writeL4_ne _ _ _ _ he]
      rfl
    | some n =>
      simp [writeL3, readL3, punch_seq_some, readL4_writeL4_ne _ _ _ _ he]
  · cases o with
    | none => simp [writeL3, readL3, punch_seq_none, mkL3, updFn_ne _ _ _ hg, readL4]
    | some n => simp [writeL3, readL3, punch_seq_some, updFn_ne _ _ _ hg]

/-- A level-2 store leaves every other value slot below the node unchanged. -/
theorem readL2_writeL2_ne {α : Type} [Zeroable α] (o : Option (L2 α)) (ctr b c d : Nat) (v : α)
    {f g e : Nat} (h : ¬(f = b ∧ g = c ∧ e = d)) :
    readL2 (some (writeL2 o ctr b c d v).1) f g e = readL2 o f g e := by
  by_cases hf : f = b
  · subst hf
    have hcd : ¬(g = c ∧ e = d) := fun hc => h ⟨rfl, hc⟩
    cases o with
    | none =>
      simp only [writeL2, punch_seq_none, readL2, updFn_self]
      rw [readL3_writeL3_ne _ _ _ _ _ hcd]
      rfl
    | some n =>
      simp [writeL2, readL2, punch_seq_some, readL3_writeL3_ne _ _ _ _ _ hcd]
  · cases o with
    | none => simp [writeL2, readL2, punch_seq_none, mkL2, updFn_ne _ _ _ hf, readL3]
    | some n => simp [writeL2, readL2, punch_seq_some, updFn_ne _ _ _ hf]

/-- A level-1 store leaves every other value slot below the node unchanged. -/
theorem readL1_writeL1_ne {α : Type} [Zeroable α] (o : Option (L1 α)) (ctr a b c d : Nat) (v : α)
    {j f g e : Nat} (h : ¬(j = a ∧ f = b ∧ g = c ∧ e = d)) :
    readL1 (some (writeL1 o ctr a b c d v).1) j f g e = readL1 o j f g e := by
  by_cases hj : j = a
  · subst hj
    have hrest : ¬(f = b ∧ g = c ∧ e = d) := fun hc => h ⟨rfl, hc⟩
    cases o with
    | none =>
      simp only [writeL1, punch_seq_none, readL1, updFn_self]
      rw [readL2_writeL2_ne _ _ _ _ _ _ hrest]
      rfl
    | some n =>
      simp [writeL1, readL1, punch_seq_some, readL2_writeL2_ne _ _ _ _ _ _ hrest]
  · cases o with
    | none => simp [writeL1, readL1, punch_seq_none, mkL1, updFn_ne _ _ _ hj, readL2]
    | some n => simp [writeL1, readL1, punch_seq_some, updFn_ne _ _ _ hj]

/-- A store through one reference is invisible through any distinct
reference: the four roots are distinct objects, and distinct paths under a
root end in distinct value slots. -/
theorem readSlot_writeSlot_ne {α : Type} [Zeroable α] (st : TableState α) (r : SlotRef) (v : α)
    {r2 : SlotRef} (h : r2 ≠ r) :
    readSlot (writeSlot st r v) r2 = readSlot st r2 := by
  cases r with
  | r4 d =>
    cases r2 with
    | r4 e =>
      have he : e ≠ d := fun hc => h (by rw [hc])
      exact readL4_writeL4_ne st.l4 st.ctr d v he
    | r3 g e => rfl
    | r2 f g e => rfl
    | r1 j f g e => rfl
  | r3 c d =>
    cases r2 with
    | r4 e => rfl
    | r3 g e =>
      have hgd : ¬(g = c ∧ e = d) := by
        rintro ⟨rfl, rfl⟩
        exact h rfl
      exact readL3_writeL3_ne st.l3 st.ctr c d v hgd
    | r2 f g e => rfl
    | r1 j f g e => rfl
  | r2 b c d =>
    cases r2 with
    | r4 e => rfl
    | r3 g e => rfl
    | r2 f g e =>
      have hfgd : ¬(f = b ∧ g = c ∧ e = d) := by
        rintro ⟨rfl, rfl, rfl⟩
        exact h rfl
      exact readL2_writeL2_ne st.l2 st.ctr b c d v hfgd
    | r1 j f g e => rfl
  | r1 a b c d =>
    cases r2 with
    | r4 e => rfl
    | r3 g e => rfl
    | r2 f g e => rfl
    | r1 j f g e =>
      have hjfgd : ¬(j = a ∧ f = b ∧ g = c ∧ e = d) := by
        rintro ⟨rfl, rfl, rfl, rfl⟩
        exact h rfl
      exact readL1_writeL1_ne st.l1 st.ctr a b c d v hjfgd

/-- The unique key whose canonical path is the given reference: inverse of
`slotRefOfKey` on 64-bit keys. -/
def keyOfRef : SlotRef → Nat
  | .r4 d => d
  | .r3 c d => c * 2 ^ 16 + d
  | .r2 b c d => b * 2 ^ 32 + c * 2 ^ 16 + d
  | .r1 a b c d => a * 2 ^ 48 + b * 2 ^ 32 + c * 2 ^ 16 + d

/-- The canonical slot reference of a 64-bit key determines the key. -/
theorem keyOfRef_slotRefOfKey {key : Nat} (h : key < 2 ^ 64) :
    keyOfRef (slotRefOfKey key) = key := by
  have hre := segs_reassemble h
  unfold slotRefOfKey
  split
  · next h4 =>
    obtain ⟨h12, h3⟩ := (lor_eq_zero_iff _ _).1 h4
    obtain ⟨h1, h2⟩ := (lor_eq_zero_iff _ _).1 h12
    simp only [keyOfRef]
    omega
  · split
    · next h3 =>
      obtain ⟨h1, h2⟩ := (lor_eq_zero_iff _ _).1 h3
      simp only [keyOfRef]
      omega
    · split
      · simp only [keyOfRef]
        omega
      · simp only [keyOfRef]
        omega

/-- Distinct 64-bit keys always resolve to distinct slots. -/
theorem slotRefOfKey_injective {k j : Nat} (hk : k < 2 ^ 64) (hj : j < 2 ^ 64)
    (hne : k ≠ j) : slotRefOfKey k ≠ slotRefOfKey j := by
  intro heq
  exact hne (by rw [← keyOfRef_slotRefOfKey hk, heq, keyOfRef_slotRefOfKey hj])

theorem l4ExtRefl {α : Type} (a : L4 α) : L4.Ext a a :=
  ⟨rfl, fun _ => rfl⟩

theorem optExt_rfl {β : Type} {ext : β → β → Prop} (hr : ∀ x, ext x x) (o : Option β) :
    OptExt ext o o := by
  cases o with
  | none => trivial
  | some a => exact hr a

theorem l3ExtRefl {α : Type} (a : L3 α) : L3.Ext a a :=
  ⟨rfl, fun i => optExt_rfl l4ExtRefl (a.children i)⟩

theorem l2ExtRefl {α : Type} (a : L2 α) : L2.Ext a a :=
  ⟨rfl, fun i => optExt_rfl l3ExtRefl (a.children i)⟩

theorem l1ExtRefl {α : Type} (a : L1 α) : L1.Ext a a :=
  ⟨rfl, fun i => optExt_rfl l2ExtRefl (a.children i)⟩

/-- Punching through a leaf slot only extends it: a null slot gets a fresh
leaf installed, a non-null slot keeps exactly its object and contents. -/
theorem optExt_punch4 {α : Type} [Zeroable α] (o : Option (L4 α)) (ctr : Nat) :
    OptExt L4.Ext o (some (punch_seq mkL4 o ctr).1) := by
  cases o with
  | none => trivial
  | some c => exact l4ExtRefl c

/-- Lemma: `installL3chain` only extends the `L3` slot it punches through. -/
theorem optExt_chain3 {α : Type} [Zeroable α] (o : Option (L3 α)) (ctr k3 : Nat) :
    OptExt L3.Ext o (some (installL3chain o ctr k3).1) := by
  cases o with
  | none => trivial
  | some n3 =>
    refine ⟨rfl, fun i => ?hi⟩
    by_cases hik : i = k3
    · subst hik
      simp only [installL3chain, punch_seq_some, updFn_self]
      exact optExt_punch4 (n3.children i) ctr
    · simp only [installL3chain, punch_seq_some, updFn_ne _ _ _ hik]
      exact optExt_rfl l4ExtRefl (n3.children i)

/-- Lemma: `installL2chain` only extends the `L2` slot it punches through. -/
theorem optExt_chain2 {α : Type} [Zeroable α] (o : Option (L2 α)) (ctr k2 k3 : Nat) :
    OptExt L2.Ext o (some (installL2chain o ctr k2 k3).1) := by
  cases o with
  | none => trivial
  | some n2 =>
    refine ⟨rfl, fun i => ?hi⟩
    by_cases hik : i = k2
    · subst hik
      simp only [installL2chain, punch_seq_some, updFn_self]
      exact optExt_chain3 (n2.children i) ctr k3
    · simp only [installL2chain, punch_seq_some, updFn_ne _ _ _ hik]
      exact optExt_rfl l3ExtRefl (n2.children i)

/-- Lemma: `installL1chain` only extends the `L1` slot it punches through. -/
theorem optExt_chain1 {α : Type} [Zeroable α] (o : Option (L1 α)) (ctr k1 k2 k3 : Nat) :
    OptExt L1.Ext o (some (installL1chain o ctr k1 k2 k3).1) := by
  cases o with
  | none => trivial
  | some n1 =>
    refine ⟨rfl, fun i => ?hi⟩
    by_cases hik : i = k1
    · subst hik
      simp only [installL1chain, punch_seq_some, updFn_self]
      exact optExt_chain2 (n1.children i) ctr k2 k3
    · simp only [installL1chain, punch_seq_some, updFn_ne _ _ _ hik]
      exact optExt_rfl l2ExtRefl (n1.children i)

theorem punch_seq_ctr_le {β : Type} (mkFresh : Nat → β) (o : Option β) (ctr : Nat) :
    ctr ≤ (punch_seq mkFresh o ctr).2 := by
  cases o with
  | none => simp [punch_seq_none]
  | some c => simp [punch_seq_some]

theorem chain3_ctr_le {α : Type} [Zeroable α] (o : Option (L3 α)) (ctr k3 : Nat) :
    ctr ≤ (installL3chain o ctr k3).2 := by
  unfold installL3chain
  exact le_trans (punch_seq_ctr_le mkL3 o ctr) (punch_seq_ctr_le mkL4 _ _)

theorem chain2_ctr_le {α : Type} [Zeroable α] (o : Option (L2 α)) (ctr k2 k3 : Nat) :
    ctr ≤ (installL2chain o ctr k2 k3).2 := by
  unfold installL2chain
  exact le_trans (punch_seq_ctr_le mkL2 o ctr) (chain3_ctr_le _ _ _)

theorem chain1_ctr_le {α : Type} [Zeroable α] (o : Option (L1 α)) (ctr k1 k2 k3 : Nat) :
    ctr ≤ (installL1chain o ctr k1 k2 k3).2 := by
  unfold installL1chain
  exact le_trans (punch_seq_ctr_le mkL1 o ctr) (chain2_ctr_le _ _ _ _)

theorem punch_seq_ctr_le_add {β : Type} (mkFresh : Nat → β) (o : Option β) (ctr : Nat) :
    (punch_seq mkFresh o ctr).2 ≤ ctr + 1 := by
  cases o with
  | none => simp [punch_seq_none]
  | some c => simp [punch_seq_some]

theorem chain3_ctr_le_add {α : Type} [Zeroable α] (o : Option (L3 α)) (ctr k3 : Nat) :
    (installL3chain o ctr k3).2 ≤ ctr + 2 := by
  simp only [installL3chain]
  have h1 := punch_seq_ctr_le_add mkL3 o ctr
  have h2 := punch_seq_ctr_le_add mkL4 ((punch_seq mkL3 o ctr).1.children k3)
    (punch_seq mkL3 o ctr).2
  omega

theorem chain2_ctr_le_add {α : Type} [Zeroable α] (o : Option (L2 α)) (ctr k2 k3 : Nat) :
    (installL2chain o ctr k2 k3).2 ≤ ctr + 3 := by
  simp only [installL2chain]
  have h1 := punch_seq_ctr_le_add mkL2 o ctr
  have h2 := chain3_ctr_le_add ((punch_seq mkL2 o ctr).1.children k2)
    (punch_seq mkL2 o ctr).2 k3
  omega

theorem chain1_ctr_le_add {α : Type} [Zeroable α] (o : Option (L1 α)) (ctr k1 k2 k3 : Nat) :
    (installL1chain o ctr k1 k2 k3).2 ≤ ctr + 4 := by
  simp only [installL1chain]
  have h1 := punch_seq_ctr_le_add mkL1 o ctr
  have h2 := chain2_ctr_le_add ((punch_seq mkL1 o ctr).1.children k1)
    (punch_seq mkL1 o ctr).2 k2 k3
  omega

theorem punchF_true {β : Type} (mkFresh : Nat → β) (o : Option β) (ctr : Nat) :
    punchF mkFresh true o ctr = some (punch_seq mkFresh o ctr) := by
  cases o <;> rfl

theorem installL3chainF_true {α : Type} [Zeroable α] (o : Option (L3 α)) (ctr k3 : Nat) :
    installL3chainF true o ctr k3 = some (installL3chain o ctr k3) := by
  simp only [installL3chainF, installL3chain, punchF_true, Option.some_bind]

theorem installL2chainF_true {α : Type} [Zeroable α] (o : Option (L2 α)) (ctr k2 k3 : Nat) :
    installL2chainF true o ctr k2 k3 = some (installL2chain o ctr k2 k3) := by
  simp only [installL2chainF, installL2chain, punchF_true, installL3chainF_true,
    Option.some_bind]

theorem installL1chainF_true {α : Type} [Zeroable α] (o : Option (L1 α)) (ctr k1 k2 k3 : Nat) :
    installL1chainF true o ctr k1 k2 k3 = some (installL1chain o ctr k1 k2 k3) := by
  simp only [installL1chainF, installL1chain, punchF_true, installL2chainF_true,
    Option.some_bind]

/-- Reads through a location other than the ones written are unchanged by a
whole operation sequence. -/
theorem readSlot_exec {α : Type} [Zeroable α] (ops : List (Op α)) (st : TableState α)
    (r : SlotRef) (h : ∀ op ∈ ops, Op.writesSlot r op = false) :
    readSlot (exec ops st) r = readSlot st r := by
  induction ops generalizing st with
  | nil => rfl
  | cons op ops ih =>
    cases op with
    | get key =>
      rw [exec, ih _ fun o ho => h o (List.mem_cons_of_mem _ ho), readSlot_get]
    | write key v =>
      rw [exec, ih _ fun o ho => h o (List.mem_cons_of_mem _ ho)]
      have hw := h _ (List.mem_cons_self _ _)
      simp only [Op.writesSlot, decide_eq_false_iff_not] at hw
      exact readSlot_writeSlot_ne st (slotRefOfKey key) v (fun hc => hw hc.symm)

/-- C1: for every key whose slot was never written, `get key` (after any
sequence of prior gets and writes-through-references) returns a slot whose
contents equal the element type's zero value: the slot was zero-initialized
at allocation and never mutated by the structure itself. -/
theorem claim1_zero_default {α : Type} [Zeroable α] (ops : List (Op α)) (key : Nat)
    (h : ∀ op ∈ ops, Op.writesSlot (slotRefOfKey key) op = false) :
    readSlot (PageTable.get (exec ops TableState.empty) key).2
      (PageTable.get (exec ops TableState.empty) key).1 = Zeroable.zeroVal := by
  rw [get_fst, readSlot_get, readSlot_exec _ _ _ h, readSlot_empty]

theorem claim1_zero_default_witness :
    readSlot (PageTable.get (exec [Op.get 1, Op.write 2 5, Op.get 70000] TableState.empty) 3).2
      (PageTable.get (exec [Op.get 1, Op.write 2 5, Op.get 70000]
        (TableState.empty : TableState Nat)) 3).1 = Zeroable.zeroVal :=
  claim1_zero_default [Op.get 1, Op.write 2 5, Op.get 70000] 3 (by decide)

/-- C2: `get` consults exactly one of the four roots, chosen by which high
segments are exactly zero: k1 = k2 = k3 = 0 gives the leaf-shortcut root
indexed only by k4; k1 = k2 = 0, k3 nonzero gives the level-3 root
traversing only k3; k1 = 0, k2 nonzero gives the level-2 root traversing
k2 then k3; otherwise the general level-1 root traversing k1, k2, k3.
The second conjunct shows the three roots not consulted are untouched. -/
theorem claim2_root_classification {α : Type} [Zeroable α] (st : TableState α) (key : Nat) :
    ((PageTable.get st key).1 =
      if k1seg key = 0 then
        if k2seg key = 0 then
          if k3seg key = 0 then SlotRef.r4 (k4seg key)
          else SlotRef.r3 (k3seg key) (k4seg key)
        else SlotRef.r2 (k2seg key) (k3seg key) (k4seg key)
      else SlotRef.r1 (k1seg key) (k2seg key) (k3seg key) (k4seg key)) ∧
    (if k1seg key = 0 then
      if k2seg key = 0 then
        if k3seg key = 0 then
          (PageTable.get st key).2.l1 = st.l1 ∧ (PageTable.get st key).2.l2 = st.l2 ∧
            (PageTable.get st key).2.l3 = st.l3
        else
          (PageTable.get st key).2.l1 = st.l1 ∧ (PageTable.get st key).2.l2 = st.l2 ∧
            (PageTable.get st key).2.l4 = st.l4
      else
        (PageTable.get st key).2.l1 = st.l1 ∧ (PageTable.get st key).2.l3 = st.l3 ∧
          (PageTable.get st key).2.l4 = st.l4
    else
      (PageTable.get st key).2.l2 = st.l2 ∧ (PageTable.get st key).2.l3 = st.l3 ∧
        (PageTable.get st key).2.l4 = st.l4) := by
  by_cases h1 : k1seg key = 0 <;> by_cases h2 : k2seg key = 0 <;>
    by_cases h3 : k3seg key = 0 <;>
    simp [PageTable.get, lor_eq_zero_iff, h1, h2, h3]

/-- C3: one execution of the get-or-install primitive on a single atomic
slot: a non-null acquire-load returns that object with no allocation, no CAS
and no free; a null load allocates exactly one zero-initialized child and
attempts exactly one CAS expecting null; CAS success returns the own new
object; CAS failure frees the speculative object and returns the object at
the pointer the failed CAS reported.  No looping: each case is a single
bounded outcome. -/
theorem claim3_punch_through {β : Type} (p q fresh : β) (casObs : Option β) :
    punch_through (some p) casObs fresh =
      ⟨p, none, false, none, some p⟩ ∧
    punch_through (none : Option β) none fresh =
      ⟨fresh, some fresh, true, none, some fresh⟩ ∧
    punch_through (none : Option β) (some q) fresh =
      ⟨q, some fresh, true, some fresh, some q⟩ :=
  ⟨rfl, rfl, rfl⟩

/-- C4 as stated is false: on an empty table, `get (2^48)` takes the general
level-1 path and allocates four heap objects (an L1, an L2, an L3 and an L4
page), exceeding the claimed bound of three. -/
theorem claim4_counterexample :
    (PageTable.get (TableState.empty : TableState Nat) (2 ^ 48)).2.ctr = 4 ∧
    (TableState.empty : TableState Nat).ctr + 3 <
      (PageTable.get (TableState.empty : TableState Nat) (2 ^ 48)).2.ctr := by
  constructor
  · rfl
  · decide

/-- C4 (amended): a single `get` call allocates at most four heap objects
(node/leaf pages): zero, one, two, three or four, depending on how many of
the objects along that key's path were already materialized by prior calls. -/
theorem claim4_alloc_le_four {α : Type} [Zeroable α] (st : TableState α) (key : Nat) :
    (PageTable.get st key).2.ctr ≤ st.ctr + 4 := by
  simp only [PageTable.get]
  split
  · have h := punch_seq_ctr_le_add mkL4 st.l4 st.ctr
    show (punch_seq mkL4 st.l4 st.ctr).2 ≤ st.ctr + 4
    omega
  · split
    · have h := chain3_ctr_le_add st.l3 st.ctr (k3seg key)
      show (installL3chain st.l3 st.ctr (k3seg key)).2 ≤ st.ctr + 4
      omega
    · split
      · have h := chain2_ctr_le_add st.l2 st.ctr (k2seg key) (k3seg key)
        show (installL2chain st.l2 st.ctr (k2seg key) (k3seg key)).2 ≤ st.ctr + 4
        omega
      · have h := chain1_ctr_le_add st.l1 st.ctr (k1seg key) (k2seg key) (k3seg key)
        show (installL1chain st.l1 st.ctr (k1seg key) (k2seg key) (k3seg key)).2 ≤ st.ctr + 4
        omega

/-- C5: repeated `get` calls with the same key, on the table or on a clone of
the handle, return the same underlying slot: the references are equal, and a
value written through the first reference is read back through the second. -/
theorem claim5_same_slot {α : Type} [Zeroable α] (st : TableState α) (key : Nat) (v : α) :
    (PageTable.get (TableState.clone (PageTable.get st key).2) key).1 =
      (PageTable.get st key).1 ∧
    readSlot
      (writeSlot (PageTable.get (TableState.clone (PageTable.get st key).2) key).2
        (PageTable.get st key).1 v)
      (PageTable.get (TableState.clone (PageTable.get st key).2) key).1 = v := by
  constructor
  · rw [get_fst, get_fst]
  · rw [get_fst st key, get_fst]
    exact readSlot_writeSlot_self _ _ v

/-- C6: `get` decomposes the key big-endian into four 16-bit segments —
k1 = bits 63..48, k2 = bits 47..32, k3 = bits 31..16, k4 = bits 15..0, the
leaf having FANOUT = 65536 slots — and reassembling the segments big-endian
recovers the key. -/
theorem claim6_decomposition {key : Nat} (h : key < 2 ^ 64) :
    k1seg key = key / 2 ^ 48 % 2 ^ 16 ∧
    k2seg key = key / 2 ^ 32 % 2 ^ 16 ∧
    k3seg key = key / 2 ^ 16 % 2 ^ 16 ∧
    k4seg key = key % 2 ^ 16 ∧
    FANOUT = 65536 ∧
    k1seg key * 2 ^ 48 + k2seg key * 2 ^ 32 + k3seg key * 2 ^ 16 + k4seg key = key :=
  ⟨k1seg_eq key, k2seg_eq key, k3seg_eq key, k4seg_eq key, rfl, segs_reassemble h⟩

theorem claim6_decomposition_witness :
    k1seg 81985529216486895 = 81985529216486895 / 2 ^ 48 % 2 ^ 16 ∧
    k2seg 81985529216486895 = 81985529216486895 / 2 ^ 32 % 2 ^ 16 ∧
    k3seg 81985529216486895 = 81985529216486895 / 2 ^ 16 % 2 ^ 16 ∧
    k4seg 81985529216486895 = 81985529216486895 % 2 ^ 16 ∧
    FANOUT = 65536 ∧
    k1seg 81985529216486895 * 2 ^ 48 + k2seg 81985529216486895 * 2 ^ 32 +
      k3seg 81985529216486895 * 2 ^ 16 + k4seg 81985529216486895 = 81985529216486895 :=
  claim6_decomposition (by norm_num)

/-- C7: monotonic installation. A `get` call only extends the table: every
root pointer and every child-pointer slot that held an object keeps exactly
that object (same id) — no non-null slot is overwritten or nulled — and no
leaf value slot is mutated. -/
theorem claim7_monotonic {α : Type} [Zeroable α] (st : TableState α) (key : Nat) :
    TableState.Ext st (PageTable.get st key).2 := by
  simp only [PageTable.get]
  split
  · exact ⟨punch_seq_ctr_le mkL4 st.l4 st.ctr, optExt_rfl l1ExtRefl st.l1,
      optExt_rfl l2ExtRefl st.l2, optExt_rfl l3ExtRefl st.l3,
      optExt_punch4 st.l4 st.ctr⟩
  · split
    · exact ⟨chain3_ctr_le st.l3 st.ctr (k3seg key), optExt_rfl l1ExtRefl st.l1,
        optExt_rfl l2ExtRefl st.l2, optExt_chain3 st.l3 st.ctr (k3seg key),
        optExt_rfl l4ExtRefl st.l4⟩
    · split
      · exact ⟨chain2_ctr_le st.l2 st.ctr (k2seg key) (k3seg key),
          optExt_rfl l1ExtRefl st.l1,
          optExt_chain2 st.l2 st.ctr (k2seg key) (k3seg key),
          optExt_rfl l3ExtRefl st.l3, optExt_rfl l4ExtRefl st.l4⟩
      · exact ⟨chain1_ctr_le st.l1 st.ctr (k1seg key) (k2seg key) (k3seg key),
          optExt_chain1 st.l1 st.ctr (k1seg key) (k2seg key) (k3seg key),
          optExt_rfl l2ExtRefl st.l2, optExt_rfl l3ExtRefl st.l3,
          optExt_rfl l4ExtRefl st.l4⟩

/-- C8: distinct 64-bit keys resolve to distinct slots, and a write through
the slot of one key never changes the value observed through the slot of the
other. -/
theorem claim8_independent {α : Type} [Zeroable α] (st : TableState α) (k j : Nat) (v : α)
    (hk : k < 2 ^ 64) (hj : j < 2 ^ 64) (hne : k ≠ j) :
    (PageTable.get st k).1 ≠ (PageTable.get st j).1 ∧
    readSlot (writeSlot st (PageTable.get st k).1 v) (PageTable.get st j).1 =
      readSlot st (PageTable.get st j).1 := by
  have hr : (PageTable.get st k).1 ≠ (PageTable.get st j).1 := by
    rw [get_fst, get_fst]
    exact slotRefOfKey_injective hk hj hne
  exact ⟨hr, readSlot_writeSlot_ne st _ v (Ne.symm hr)⟩

theorem claim8_independent_witness :
    ((PageTable.get (TableState.empty : TableState Nat) 0).1 ≠
      (PageTable.get (TableState.empty : TableState Nat) 1).1 ∧
    readSlot
      (writeSlot (TableState.empty : TableState Nat)
        (PageTable.get (TableState.empty : TableState Nat) 0).1 7)
      (PageTable.get (TableState.empty : TableState Nat) 1).1 =
      readSlot (TableState.empty : TableState Nat)
        (PageTable.get (TableState.empty : TableState Nat) 1).1) :=
  claim8_independent TableState.empty 0 1 7 (by norm_num) (by norm_num) (by decide)

/-- C9: `get` is total. When every allocation succeeds, the fallible model
never aborts (the null-pointer assertion branch is unreachable) and agrees
with the total `get` on every one of the 2^64 keys; the only failure mode it
has at all is allocation exhaustion, modelled by the `none` result. -/
theorem claim9_total {α : Type} [Zeroable α] (st : TableState α) (key : Nat) :
    PageTable.getF true st key = some (PageTable.get st key) := by
  simp only [PageTable.getF, PageTable.get, punchF_true, installL3chainF_true,
    installL2chainF_true, installL1chainF_true, Option.some_bind]
  split
  · rfl
  · split
    · rfl
    · split <;> rfl

/-- C10: the `Index` operator delegates to `get` on the converted key, so
`table[i]` and `get (into i)` return exactly the same slot and state. -/
theorem claim10_index_eq_get {α ι : Type} [Zeroable α] (st : TableState α)
    (into : ι → Nat) (i : ι) :
    PageTable.index st into i = PageTable.get st (into i) := rfl
